import Mathlib

/-!
Shallow embedding of the form-state engine in `src/composables/useForm.ts`
(webmx-ui). JavaScript values are modelled by an inductive `JSValue`
(numbers as integers), JavaScript plain objects by insertion-ordered
association lists (`Obj`), and the engine's reactive refs by an explicit
record `EngineState` threaded through each operation. Asynchronous external
validators (the two schema-library adapters) are modelled as outcome
oracles carried by the schema object; thrown failures are structured
values whose optional fields mirror the property probes the code performs.
-/

namespace WebmxForm

/-- JS-like runtime values as the engine manipulates them.
Numbers are modelled as integers (the engine only compares them). -/
inductive JSValue where
  | str (s : String)
  | num (n : Int)
  | bool (b : Bool)
  | null
  | undef
  | arr (elems : List JSValue)
deriving Repr

/-- JavaScript truthiness for the modelled values: `''`, `0`, `false`,
`null`, `undefined` are falsy; every array (object) is truthy. -/
def truthy : JSValue → Bool
  | .str s => s ≠ ""
  | .num n => n ≠ 0
  | .bool b => b
  | .null => false
  | .undef => false
  | .arr _ => true

/-- String coercion applied by `RegExp.test` to a non-string argument. -/
def jsToString : JSValue → String
  | .str s => s
  | .num n => toString n
  | .bool b => if b then "true" else "false"
  | .null => "null"
  | .undef => "undefined"
  | .arr elems => String.intercalate "," (elems.map fun v =>
      match v with
      | .str s => s
      | .num n => toString n
      | .bool b => if b then "true" else "false"
      | .null => ""
      | .undef => ""
      | .arr _ => "")

/-- Whitespace for the `\s` character class of the email regex. -/
def isWsChar (c : Char) : Bool :=
  c = ' ' ∨ c = '\t' ∨ c = '\n' ∨ c = '\r' ∨ c = '\x0b' ∨ c = '\x0c'

/-- The email regex `^[^\s@]+@[^\s@]+\.[^\s@]+$` matches exactly the strings
of shape `A@B.C` with `A`, `B`, `C` nonempty and free of whitespace and `@`
(`B`, `C` may contain further dots). Equivalently: no whitespace anywhere,
exactly one `@` which is not the first character, and the part after the
`@` contains a `.` at an interior position. -/
def emailMatch (s : String) : Bool :=
  let cs := s.toList
  cs.all (fun c => ¬ isWsChar c) &&
  cs.count '@' = 1 &&
  (match cs.findIdx? (· = '@') with
   | none => false
   | some i =>
     decide (0 < i) &&
     (let rest := cs.drop (i + 1)
      (List.range rest.length).any fun j =>
        rest.get? j = some '.' ∧ 0 < j ∧ j + 1 < rest.length))

/-- The `ValidationRule` variants of the source. `pattern` and `custom`
carry their test as an abstract boolean predicate on the value (the source
stores a RegExp / a caller-supplied function); `min`/`max` comparison
values are numbers, `minLength`/`maxLength` are numbers used against a
string length. Each rule carries its fixed failure message. -/
inductive ValidationRule where
  | required (message : String)
  | email (message : String)
  | min (value : Int) (message : String)
  | max (value : Int) (message : String)
  | minLength (value : Int) (message : String)
  | maxLength (value : Int) (message : String)
  | pattern (test : JSValue → Bool) (message : String)
  | custom (test : JSValue → Bool) (message : String)

/-- The failure message a rule carries. -/
def ValidationRule.message : ValidationRule → String
  | .required m => m
  | .email m => m
  | .min _ m => m
  | .max _ m => m
  | .minLength _ m => m
  | .maxLength _ m => m
  | .pattern _ m => m
  | .custom _ m => m

/-- One arm of the `switch` in `validateValue`: `some message` iff the rule
fails on the value. Mirrors the source case by case:
`required` fails on `undefined`/`null`/`''`/empty array; `email`,
`pattern`, `custom` only test truthy values; `min`/`max` only apply to
numbers; `minLength`/`maxLength` only apply to strings. -/
def ruleError (value : JSValue) (rule : ValidationRule) : Option String :=
  match rule with
  | .required m =>
      match value with
      | .undef => some m
      | .null => some m
      | .str "" => some m
      | .arr [] => some m
      | _ => none
  | .email m =>
      if truthy value ∧ ¬ emailMatch (jsToString value) then some m else none
  | .min bound m =>
      match value with
      | .num n => if n < bound then some m else none
      | _ => none
  | .max bound m =>
      match value with
      | .num n => if bound < n then some m else none
      | _ => none
  | .minLength bound m =>
      match value with
      | .str s => if (s.length : Int) < bound then some m else none
      | _ => none
  | .maxLength bound m =>
      match value with
      | .str s => if bound < (s.length : Int) then some m else none
      | _ => none
  | .pattern t m => if truthy value ∧ ¬ t value then some m else none
  | .custom t m => if truthy value ∧ ¬ t value then some m else none

/-- Source `validateValue(value, rules)`: walk the rule list in order and return
the first failing rule's message (the source `return`s from inside the
loop), or `undefined` when every rule passes. -/
def validateValue (value : JSValue) : List ValidationRule → Option String
  | [] => none
  | rule :: rest =>
    match ruleError value rule with
    | some m => some m
    | none => validateValue value rest

/-- A JavaScript plain object with string keys, as an insertion-ordered
association list with pairwise-distinct keys maintained by construction:
assignment to a present key updates it in place, assignment to an absent
key appends, `delete` removes. -/
abbrev Obj (α : Type) := List (String × α)

namespace Obj

/-- Property read: `o[k]`, `none` for an absent key (`undefined`). -/
def get? (o : Obj α) (k : String) : Option α :=
  (o.find? fun p => p.1 = k).map (·.2)

/-- Key-presence test (`k in o`). -/
def hasKey (o : Obj α) (k : String) : Bool :=
  o.any fun p => p.1 = k

/-- Property write: `o[k] = v`. Updates in place when the key is present
(keys are pairwise distinct), appends otherwise (JS insertion-order
semantics). -/
def set (o : Obj α) (k : String) (v : α) : Obj α :=
  match o with
  | [] => [(k, v)]
  | p :: t => if p.1 = k then (k, v) :: t else p :: set t k v

/-- Deletion `delete o[k]`. -/
def del (o : Obj α) (k : String) : Obj α :=
  o.filter fun p => ¬ p.1 = k

/-- Update the value at a present key, leaving absent keys alone. -/
def modify (o : Obj α) (k : String) (f : α → α) : Obj α :=
  o.map fun p => if p.1 = k then (p.1, f p.2) else p

/-- Key list, as `Object.keys`. -/
def keys (o : Obj α) : List String :=
  o.map (·.1)

end Obj

/-- Per-field metadata, as in the `FieldMeta` interface. -/
structure FieldMeta where
  touched : Bool
  dirty : Bool
  error : Option String := none
  valid : Bool
  pending : Bool
deriving Repr, DecidableEq

/-- The default record the engine creates lazily:
`{ touched: false, dirty: false, valid: true, pending: false }`. -/
def freshMeta : FieldMeta :=
  { touched := false, dirty := false, valid := true, pending := false }

/-- A per-field issue inside a variant-A (`parseAsync`) aggregate failure:
`{ path: [...], message }`. Path segments are modelled as strings
(the code only reads `path[0]` and compares it with a field name). -/
structure ZodIssue where
  path : List String
  message : String
deriving Repr, DecidableEq

/-- Outcome of awaiting variant A's `parseAsync(values)`: normal return, or
a thrown failure probed for optional `issues` and `errors` lists. -/
inductive ZodOutcome where
  | ok
  | thrown (issuesField : Option (List ZodIssue)) (errorsField : Option (List ZodIssue))
deriving Repr, DecidableEq

/-- Outcome of awaiting variant B's `validateAt(name, values)`: normal
return, or a thrown failure probed for a `message` (`none` models an
absent message; `some ""` an empty one — both falsy). -/
inductive YupAtOutcome where
  | ok
  | thrown (message : Option String)
deriving Repr, DecidableEq

/-- A `{ path, message }` entry of variant B's `inner` list. -/
structure YupIssue where
  path : String
  message : String
deriving Repr, DecidableEq

/-- Outcome of awaiting variant B's whole-form
`validate(values, { abortEarly: false })`: normal return, or a thrown
failure whose `inner` is either a recognizable array (`some`) or
missing / not an array (`none`). -/
inductive YupAllOutcome where
  | ok
  | thrown (inner : Option (List YupIssue))
deriving Repr, DecidableEq

/-- An opaque schema object as the engine sees it. The two marker flags
model the `'_def' in schema` and `'__isYupSchema__' in schema` probes; the
three oracles model the awaited adapter calls as functions of the value
mapping passed to them; `rulesEntries` is the object's own enumerable
entries, read only when the object is treated as a rules mapping. -/
structure SchemaObj where
  hasDefMarker : Bool
  hasYupMarker : Bool
  parseAsync : Obj JSValue → ZodOutcome
  validateAt : String → Obj JSValue → YupAtOutcome
  validateAll : Obj JSValue → YupAllOutcome
  rulesEntries : Obj (List ValidationRule)

/-- The mutable engine state: the reactive refs `values`, `errors`
(ErrorBag), `fieldsMeta`, `isSubmitting`, `isValidating`, `submitCount`,
`fieldRules`, plus bookkeeping the embedding needs: `valuesRef` is the
identity of the object currently backing `values` (a fresh number per
`{ ... }` shallow copy, allocated from `nextRef`), and `consoleLog`
records `console.error` output. -/
structure EngineState where
  values : Obj JSValue
  valuesRef : Nat
  errors : Obj (List String)
  fieldsMeta : Obj FieldMeta
  isSubmitting : Bool
  isValidating : Bool
  submitCount : Nat
  fieldRules : Obj (List ValidationRule)
  consoleLog : List String
  nextRef : Nat

/-- A submit callback (`onValid` / the configured `onSubmit`). It receives
the live values and the submission context, so its net effect is a state
transformation; the `Bool` is true when the callback threw (its promise
rejected). Mutations made before the throw persist, as in JS. -/
def Callback := EngineState → EngineState × Bool

/-- The per-instance configuration captured at construction:
the construction-time initial values (with the identity of the caller's
object), the classified active schema, and the engine-level `onSubmit`. -/
structure Config where
  initialValues : Obj JSValue
  initialValuesRef : Nat
  activeSchema : Option SchemaObj
  onSubmit : Option Callback

/-- Probe `isZodSchema`: the active schema exists and has the `_def` marker. -/
def Config.isZodSchema (cfg : Config) : Bool :=
  match cfg.activeSchema with
  | some sc => sc.hasDefMarker
  | none => false

/-- Probe `isYupSchema`: the active schema exists and has the `__isYupSchema__`
marker. -/
def Config.isYupSchema (cfg : Config) : Bool :=
  match cfg.activeSchema with
  | some sc => sc.hasYupMarker
  | none => false

/-- The awaited `parseAsync` call (only reached when `isZodSchema`). -/
def Config.zodParse (cfg : Config) (values : Obj JSValue) : ZodOutcome :=
  match cfg.activeSchema with
  | some sc => sc.parseAsync values
  | none => .ok

/-- The awaited `validateAt` call (only reached when `isYupSchema`). -/
def Config.yupAt (cfg : Config) (name : String) (values : Obj JSValue) : YupAtOutcome :=
  match cfg.activeSchema with
  | some sc => sc.validateAt name values
  | none => .ok

/-- The awaited whole-form `validate(values, { abortEarly: false })`. -/
def Config.yupAll (cfg : Config) (values : Obj JSValue) : YupAllOutcome :=
  match cfg.activeSchema with
  | some sc => sc.validateAll values
  | none => .ok

/-- Truthiness of an optional string property (`if (err.message)`,
`!meta.error`): absent or empty is falsy. -/
def optStrTruthy : Option String → Bool
  | some s => s ≠ ""
  | none => false

/-- Source `setFieldValue(name, value)`: write the value, lazily create the
field's meta record, mark it dirty. -/
def setFieldValue (s : EngineState) (name : String) (value : JSValue) : EngineState :=
  let s := { s with values := s.values.set name value }
  let s :=
    if s.fieldsMeta.hasKey name then s
    else { s with fieldsMeta := s.fieldsMeta.set name freshMeta }
  { s with fieldsMeta := s.fieldsMeta.modify name fun m => { m with dirty := true } }

/-- Source `setValues(fields)`: apply `setFieldValue` per entry in order. -/
def setValues (s : EngineState) (fields : Obj JSValue) : EngineState :=
  fields.foldl (fun st p => setFieldValue st p.1 p.2) s

/-- Source `setFieldError(name, error)`: replace the field's error list with
the singleton `[error]`. -/
def setFieldError (s : EngineState) (name : String) (error : String) : EngineState :=
  { s with errors := s.errors.set name [error] }

/-- Source `setErrors(fields)`: apply `setFieldError` per entry in order. -/
def setErrors (s : EngineState) (fields : Obj String) : EngineState :=
  fields.foldl (fun st p => setFieldError st p.1 p.2) s

/-- Source `setServerErrors(serverErrors)`:
`errors.value = { ...errors.value, ...serverErrors }` — a shallow merge
that overwrites per field and appends new keys in the argument's order. -/
def setServerErrors (s : EngineState) (serverErrors : Obj (List String)) : EngineState :=
  { s with errors := serverErrors.foldl (fun eb p => eb.set p.1 p.2) s.errors }

/-- Source `setFieldTouched(name, isTouched)`: lazily create the meta
record carrying the flag, or set the flag on an existing record. -/
def setFieldTouched (s : EngineState) (name : String) (isTouched : Bool) : EngineState :=
  if s.fieldsMeta.hasKey name then
    { s with fieldsMeta := s.fieldsMeta.modify name fun m => { m with touched := isTouched } }
  else
    { s with fieldsMeta := s.fieldsMeta.set name { freshMeta with touched := isTouched } }

/-- Source `setTouched(fields)`: apply `setFieldTouched` per entry. -/
def setTouched (s : EngineState) (fields : Obj Bool) : EngineState :=
  fields.foldl (fun st p => setFieldTouched st p.1 p.2) s

/-- Source `getFieldError(name)`: `errors.value[name]?.[0]`. -/
def getFieldError (s : EngineState) (name : String) : Option String :=
  (s.errors.get? name).bind List.head?

/-- Source `getFieldMeta(name)`: lazily create the record, refresh its
`error` from the bag and `valid` from the error's truthiness, return it. -/
def getFieldMeta (s : EngineState) (name : String) : FieldMeta × EngineState :=
  let s :=
    if s.fieldsMeta.hasKey name then s
    else { s with fieldsMeta := s.fieldsMeta.set name freshMeta }
  let err := getFieldError s name
  let s := { s with fieldsMeta := s.fieldsMeta.modify name fun m =>
      { m with error := err, valid := ¬ optStrTruthy err } }
  ((s.fieldsMeta.get? name).getD freshMeta, s)

/-- The `{ valid, errors }` record a single-field validation resolves to. -/
structure FieldResult where
  valid : Bool
  errors : List String
deriving Repr, DecidableEq

/-- Source `validateField(name, rules?)`. The variant-A branch returns on
every path; the variant-B branch falls through to the rules check when the
thrown failure has no truthy `message` (the source `if` has no `else`),
and the no-rules tail returns valid without touching the error bag. -/
def validateField (cfg : Config) (s : EngineState) (name : String)
    (rules : Option (List ValidationRule)) : FieldResult × EngineState :=
  let value := (s.values.get? name).getD .undef
  let rulesToUse := rules.orElse (fun _ => s.fieldRules.get? name)
  if cfg.isZodSchema then
    match cfg.zodParse s.values with
    | .ok => (⟨true, []⟩, { s with errors := s.errors.del name })
    | .thrown issuesField errorsField =>
      match issuesField.orElse (fun _ => errorsField) with
      | some issues =>
        match issues.find? (fun e => e.path.head? = some name) with
        | some fieldError =>
            (⟨false, [fieldError.message]⟩,
             { s with errors := s.errors.set name [fieldError.message] })
        | none => (⟨true, []⟩, { s with errors := s.errors.del name })
      | none => (⟨true, []⟩, { s with errors := s.errors.del name })
  else
    let yupOutcome : Option (FieldResult × EngineState) :=
      if cfg.isYupSchema then
        match cfg.yupAt name s.values with
        | .ok => some (⟨true, []⟩, { s with errors := s.errors.del name })
        | .thrown message =>
          match message with
          | some m =>
              if m ≠ "" then
                some (⟨false, [m]⟩, { s with errors := s.errors.set name [m] })
              else none
          | none => none
      else none
    match yupOutcome with
    | some r => r
    | none =>
      match rulesToUse with
      | some rs =>
        match validateValue value rs with
        | some error => (⟨false, [error]⟩, { s with errors := s.errors.set name [error] })
        | none => (⟨true, []⟩, { s with errors := s.errors.del name })
      | none => (⟨true, []⟩, s)

/-- Appending a message to a field's error list, as the
`if (!errors.value[k]) errors.value[k] = []; errors.value[k].push(m)`
idiom of whole-form validation. -/
def pushError (eb : Obj (List String)) (key : String) (msg : String) : Obj (List String) :=
  eb.set key ((eb.get? key).getD [] ++ [msg])

/-- The `simpleErrors` view built at the end of whole-form validation:
`Object.keys(errors.value)` in order, each mapped to its first message
(every list a whole-form run produces is nonempty). -/
def simpleErrors (eb : Obj (List String)) : Obj String :=
  eb.map fun p => (p.1, p.2.headD "")

/-- The `{ valid, errors }` record whole-form validation resolves to. -/
structure FormResult where
  valid : Bool
  errors : Obj String
deriving Repr, DecidableEq

/-- Source `validate()`: set `isValidating`, clear the whole bag, dispatch
on the schema classification; the rules branch loops over every entry of
`fieldRules` (never short-circuiting across fields) and conjoins the
per-field results; always clear `isValidating` before resolving. -/
def validate (cfg : Config) (s : EngineState) : FormResult × EngineState :=
  let s := { s with isValidating := true, errors := [] }
  if cfg.isZodSchema then
    match cfg.zodParse s.values with
    | .ok => (⟨true, []⟩, { s with isValidating := false })
    | .thrown issuesField errorsField =>
      let s :=
        match issuesField.orElse (fun _ => errorsField) with
        | some issues =>
            let eb := issues.foldl
              (fun eb (e : ZodIssue) => pushError eb (e.path.headD "undefined") e.message) s.errors
            { s with errors := eb }
        | none => s
      (⟨false, simpleErrors s.errors⟩, { s with isValidating := false })
  else if cfg.isYupSchema then
    match cfg.yupAll s.values with
    | .ok => (⟨true, []⟩, { s with isValidating := false })
    | .thrown inner =>
      let s :=
        match inner with
        | some issues =>
            let eb := issues.foldl (fun eb (e : YupIssue) => pushError eb e.path e.message) s.errors
            { s with errors := eb }
        | none => s
      (⟨false, simpleErrors s.errors⟩, { s with isValidating := false })
  else
    let step := s.fieldRules.foldl
      (fun acc p =>
        let r := validateField cfg acc.2 p.1 (some p.2)
        (acc.1 && r.1.valid, r.2))
      (true, s)
    (⟨step.1, simpleErrors step.2.errors⟩, { step.2 with isValidating := false })

/-- The `Partial<FormState>` argument of `resetForm`. -/
structure PartialFormState where
  values : Option (Obj JSValue) := none
  errors : Option (Obj String) := none
  touched : Option (Obj Bool) := none
  submitCount : Option Nat := none

/-- Source `resetForm(state?)`: `values` becomes a fresh shallow copy of
`state?.values || initialValues` (fresh object identity from `nextRef`);
the bag and meta maps are rebuilt from scratch (errors wrapped as
singletons, touched flags seeded onto fresh meta records); the flags clear
and `submitCount` becomes `state?.submitCount || 0`. -/
def resetForm (cfg : Config) (s : EngineState) (state : Option PartialFormState) :
    EngineState :=
  { s with
    values := (state.bind (·.values)).getD cfg.initialValues,
    valuesRef := s.nextRef,
    nextRef := s.nextRef + 1,
    errors :=
      match state.bind (·.errors) with
      | some m => m.map fun p => (p.1, [p.2])
      | none => [],
    fieldsMeta :=
      match state.bind (·.touched) with
      | some m => m.map fun p => (p.1, { freshMeta with touched := p.2 })
      | none => [],
    isSubmitting := false,
    isValidating := false,
    submitCount := (state.bind (·.submitCount)).getD 0 }

/-- Source `handleReset()`: `resetForm()` with no override. -/
def handleReset (cfg : Config) (s : EngineState) : EngineState :=
  resetForm cfg s none

/-- One invocation of the handler returned by `handleSubmit`. The event
argument only calls `preventDefault`/`stopPropagation` and does not touch
engine state, so it is not modelled. `onValid` falls back to the
configured `onSubmit`; a throwing callback is caught and logged
(`console.error('Form submission error:', ...)`); `onInvalid` receives the
error bag and is modelled by its declared non-throwing contract;
`isSubmitting` is cleared by the final statement. -/
def handleSubmitRun (cfg : Config) (onValid : Option Callback)
    (onInvalid : Option (EngineState → EngineState)) (s : EngineState) : EngineState :=
  let s := { s with isSubmitting := true, submitCount := s.submitCount + 1 }
  let run := validate cfg s
  let s :=
    if run.1.valid then
      match onValid.orElse (fun _ => cfg.onSubmit) with
      | some cb =>
        let cbRun := cb run.2
        if cbRun.2 then
          { cbRun.1 with consoleLog := cbRun.1.consoleLog ++ ["Form submission error:"] }
        else cbRun.1
      | none => run.2
    else
      match onInvalid with
      | some f => f run.2
      | none => run.2
  { s with isSubmitting := false }

/-- Source `submitForm(e?)`: `handleSubmit()` (no callbacks) applied once. -/
def submitForm (cfg : Config) (s : EngineState) : EngineState :=
  handleSubmitRun cfg none none s

/-- The state effect of `register(name, options?)`: store the rules when
given (`if (rules)` — any supplied array, even empty, is truthy), then
`if (!values.value[name]) values.value[name] = ''` — a truthiness test, so
any falsy current value (missing, `undefined`, `null`, `''`, `0`, `false`)
is replaced by the empty string. The returned binding handle (computed
value view, `onInput`, `onBlur`) closes over the engine and creates no
state of its own. -/
def register (s : EngineState) (name : String)
    (rules : Option (List ValidationRule)) : EngineState :=
  let s :=
    match rules with
    | some rs => { s with fieldRules := s.fieldRules.set name rs }
    | none => s
  if truthy ((s.values.get? name).getD .undef) then s
  else { s with values := s.values.set name (.str "") }

/-- The recognized `useForm` options. -/
structure UseFormOptions where
  initialValues : Obj JSValue := []
  initialErrors : Obj String := []
  initialTouched : Obj Bool := []
  validationSchema : Option SchemaObj := none
  schema : Option SchemaObj := none
  validateOnMount : Bool := false
  onSubmit : Option Callback := none

/-- Source `const activeSchema = validationSchema || schema` (every schema
object is truthy, so `||` is left-biased choice on presence). -/
def mkActiveSchema (opts : UseFormOptions) : Option SchemaObj :=
  opts.validationSchema.orElse (fun _ => opts.schema)

/-- The construction-time configuration. `initialValuesRef` is the
identity of the caller's `initialValues` object. -/
def mkConfig (opts : UseFormOptions) (initialValuesRef : Nat) : Config :=
  { initialValues := opts.initialValues
    initialValuesRef := initialValuesRef
    activeSchema := mkActiveSchema opts
    onSubmit := opts.onSubmit }

/-- Construction of an engine (`useForm(options)`): `values` starts as a
fresh shallow copy `{ ...initialValues }`, the bag is seeded from
`initialErrors` (singleton lists), meta from `initialTouched`,
`fieldRules` from the active schema when neither external marker is
present; `validateOnMount` runs one whole-form validation whose result is
dropped. -/
def mkEngine (opts : UseFormOptions) (initialValuesRef : Nat) : Config × EngineState :=
  let cfg := mkConfig opts initialValuesRef
  let fieldRules :=
    match mkActiveSchema opts with
    | some sc =>
        if ¬ sc.hasDefMarker ∧ ¬ sc.hasYupMarker then sc.rulesEntries else []
    | none => []
  let s : EngineState :=
    { values := opts.initialValues
      valuesRef := initialValuesRef + 1
      errors := opts.initialErrors.map fun p => (p.1, [p.2])
      fieldsMeta := opts.initialTouched.map fun p => (p.1, { freshMeta with touched := p.2 })
      isSubmitting := false
      isValidating := false
      submitCount := 0
      fieldRules := fieldRules
      consoleLog := []
      nextRef := initialValuesRef + 2 }
  let s := if opts.validateOnMount then (validate cfg s).2 else s
  (cfg, s)

/-- Closed-form characterization: every rule-bearing field passes its
list against the given values. -/
def allPass (vals : Obj JSValue) (entries : Obj (List ValidationRule)) : Bool :=
  entries.all fun p => (validateValue ((vals.get? p.1).getD .undef) p.2).isNone

/-- Closed-form characterization of the ErrorBag after a rules-mode
whole-form validation: each failing field with its singleton message. -/
def failEntries (vals : Obj JSValue) (entries : Obj (List ValidationRule)) :
    Obj (List String) :=
  entries.filterMap fun p =>
    (validateValue ((vals.get? p.1).getD .undef) p.2).map fun m => (p.1, [m])

/-- Closed-form characterization of the simplified errors map returned by
a rules-mode whole-form validation: each failing field with its message. -/
def failMessages (vals : Obj JSValue) (entries : Obj (List ValidationRule)) :
    Obj String :=
  entries.filterMap fun p =>
    (validateValue ((vals.get? p.1).getD .undef) p.2).map fun m => (p.1, m)

/-! Concrete instances used by witnesses and counterexamples. -/

/-- An engine state template with the given values, bag and rules. -/
def baseState (vals : Obj JSValue) (errs : Obj (List String))
    (frs : Obj (List ValidationRule)) : EngineState :=
  { values := vals
    valuesRef := 1
    errors := errs
    fieldsMeta := []
    isSubmitting := false
    isValidating := false
    submitCount := 0
    fieldRules := frs
    consoleLog := []
    nextRef := 2 }

/-- A configuration with no schema and no engine-level submit callback. -/
def noSchemaCfg : Config :=
  { initialValues := [], initialValuesRef := 0, activeSchema := none, onSubmit := none }

/-- A variant-A schema whose parse always throws a failure carrying neither
an `issues` nor an `errors` list (the out-of-contract shape). -/
def zodEmptyFailSchema : SchemaObj :=
  { hasDefMarker := true
    hasYupMarker := false
    parseAsync := fun _ => .thrown none none
    validateAt := fun _ _ => .ok
    validateAll := fun _ => .ok
    rulesEntries := [] }

/-- A variant-B schema whose single-field validation always throws a
failure carrying no message (the out-of-contract shape). -/
def yupNoMsgSchema : SchemaObj :=
  { hasDefMarker := false
    hasYupMarker := true
    parseAsync := fun _ => .ok
    validateAt := fun _ _ => .thrown none
    validateAll := fun _ => .ok
    rulesEntries := [] }

/-- A configuration whose active schema is `zodEmptyFailSchema`. -/
def zodFailCfg : Config := { noSchemaCfg with activeSchema := some zodEmptyFailSchema }

/-- A configuration whose active schema is `yupNoMsgSchema`. -/
def yupNoMsgCfg : Config := { noSchemaCfg with activeSchema := some yupNoMsgSchema }

/-- A bag state holding one stale error for field `f` and no rules. -/
def staleErrState : EngineState := baseState [("f", .str "x")] [("f", ["old"])] []

/-- A state whose field `age` currently holds the number `0`. -/
def ageZeroState : EngineState := baseState [("age", .num 0), ("x", .num 5)] [] []

/-- A state with a stale error for `name`, no schema and no rules. -/
def staleNameState : EngineState := baseState [("name", .str "John")] [("name", ["stale"])] []

/-- A state whose `name` passes its registered required rule. -/
def namePassState : EngineState :=
  baseState [("name", .str "John")] [("name", ["stale"])] [("name", [.required "req"])]

/-- A marker-only schema used to exercise option precedence. -/
def schemaOptionA : SchemaObj :=
  { hasDefMarker := true
    hasYupMarker := false
    parseAsync := fun _ => .ok
    validateAt := fun _ _ => .ok
    validateAll := fun _ => .ok
    rulesEntries := [] }

/-- A second marker-only schema used to exercise option precedence. -/
def schemaOptionB : SchemaObj :=
  { hasDefMarker := false
    hasYupMarker := true
    parseAsync := fun _ => .ok
    validateAt := fun _ _ => .ok
    validateAll := fun _ => .ok
    rulesEntries := [] }

/-- A submit callback that throws after changing nothing. -/
def throwingCb : Callback := fun st => (st, true)

/-- A configuration whose active schema is variant A and always parses
successfully (`schemaOptionA`). -/
def zodOkCfg : Config := { noSchemaCfg with activeSchema := some schemaOptionA }

/-- A configuration whose active schema is variant B and always validates
successfully (`schemaOptionB`). -/
def yupOkCfg : Config := { noSchemaCfg with activeSchema := some schemaOptionB }

/-- Options carrying one initial value, used for reset scenarios. -/
def resetOpts : UseFormOptions := { initialValues := [("name", .str "a")] }

/-- A two-field rules state: `a` fails `required`, `b` passes it. -/
def twoFieldState : EngineState :=
  baseState [("a", .str ""), ("b", .str "x")] []
    [("a", [.required "A required"]), ("b", [.required "B required"])]

/-- The state reached after the validation step of a submit on an empty,
schema-free form (trivially valid). -/
def c8AfterValidate : EngineState :=
  (validate noSchemaCfg
    { baseState [] [] [] with
        isSubmitting := true
        submitCount := (baseState [] [] []).submitCount + 1 }).2

namespace Obj

theorem get?_cons (p : String × α) (t : Obj α) (k : String) :
    Obj.get? (p :: t) k = if p.1 = k then some p.2 else t.get? k := by
  by_cases hp : p.1 = k <;> simp [get?, List.find?_cons, hp]

theorem get?_append (o₁ o₂ : Obj α) (k : String) :
    Obj.get? (o₁ ++ o₂) k = ((o₁.get? k).or (o₂.get? k)) := by
  induction o₁ with
  | nil => simp [get?]
  | cons p t ih =>
    rw [List.cons_append, get?_cons, get?_cons]
    by_cases hp : p.1 = k <;> simp [hp, ih]

theorem hasKey_eq_isSome (o : Obj α) (k : String) : o.hasKey k = (o.get? k).isSome := by
  induction o with
  | nil => rfl
  | cons p t ih =>
    by_cases hp : p.1 = k
    · simp [hasKey, get?_cons, hp]
    · simpa [hasKey, List.any_cons, get?_cons, hp] using ih

theorem get?_set_self (o : Obj α) (k : String) (v : α) :
    (o.set k v).get? k = some v := by
  induction o with
  | nil => simp [set, get?_cons]
  | cons p t ih =>
    by_cases hp : p.1 = k
    · simp [set, hp, get?_cons]
    · simp only [set, hp, if_false]
      rw [get?_cons, if_neg hp]
      exact ih

theorem get?_set_ne {k k' : String} (o : Obj α) (h : k' ≠ k) (v : α) :
    (o.set k v).get? k' = o.get? k' := by
  induction o with
  | nil => simp [set, get?_cons, Ne.symm h, get?]
  | cons p t ih =>
    by_cases hp : p.1 = k
    · have hne : p.1 ≠ k' := by rw [hp]; exact Ne.symm h
      simp [set, hp, get?_cons, Ne.symm h, hne]
    · simp only [set, hp, if_false]
      rw [get?_cons, get?_cons]
      by_cases hp' : p.1 = k' <;> simp [hp', ih]

theorem del_cons (p : String × α) (t : Obj α) (k : String) :
    Obj.del (p :: t) k = if p.1 = k then t.del k else p :: t.del k := by
  by_cases hp : p.1 = k <;> simp [del, List.filter_cons, hp]

theorem get?_del_self (o : Obj α) (k : String) : (o.del k).get? k = none := by
  induction o with
  | nil => rfl
  | cons p t ih =>
    rw [del_cons]
    by_cases hp : p.1 = k
    · simpa [hp] using ih
    · rw [if_neg hp, get?_cons, if_neg hp]
      exact ih

theorem get?_del_ne {k k' : String} (o : Obj α) (h : k' ≠ k) :
    (o.del k).get? k' = o.get? k' := by
  induction o with
  | nil => rfl
  | cons p t ih =>
    rw [del_cons]
    by_cases hp : p.1 = k
    · have hne : p.1 ≠ k' := by rw [hp]; exact Ne.symm h
      rw [if_pos hp, get?_cons, if_neg hne]
      exact ih
    · rw [if_neg hp, get?_cons, get?_cons]
      by_cases hp' : p.1 = k' <;> simp [hp', ih]

theorem del_eq_self_of_get?_none {o : Obj α} {k : String} (h : o.get? k = none) :
    o.del k = o := by
  induction o with
  | nil => rfl
  | cons p t ih =>
    rw [get?_cons] at h
    by_cases hp : p.1 = k
    · rw [if_pos hp] at h; exact absurd h (by simp)
    · rw [if_neg hp] at h
      rw [del_cons, if_neg hp, ih h]

theorem set_eq_append_of_get?_none {o : Obj α} {k : String} (h : o.get? k = none)
    (v : α) : o.set k v = o ++ [(k, v)] := by
  induction o with
  | nil => rfl
  | cons p t ih =>
    rw [get?_cons] at h
    by_cases hp : p.1 = k
    · rw [if_pos hp] at h; exact absurd h (by simp)
    · rw [if_neg hp] at h
      simp only [set, hp, if_false, List.cons_append]
      rw [ih h]

theorem modify_cons (p : String × α) (t : Obj α) (k : String) (f : α → α) :
    Obj.modify (p :: t) k f = (if p.1 = k then (p.1, f p.2) else p) :: t.modify k f := by
  by_cases hp : p.1 = k <;> simp [modify, hp]

theorem get?_modify_self (o : Obj α) (k : String) (f : α → α) :
    (o.modify k f).get? k = (o.get? k).map f := by
  induction o with
  | nil => rfl
  | cons p t ih =>
    rw [modify_cons]
    by_cases hp : p.1 = k
    · rw [if_pos hp, get?_cons]
      simp [hp, get?_cons]
    · rw [if_neg hp, get?_cons, if_neg hp, get?_cons, if_neg hp]
      exact ih

theorem get?_modify_ne {k k' : String} (o : Obj α) (h : k' ≠ k) (f : α → α) :
    (o.modify k f).get? k' = o.get? k' := by
  induction o with
  | nil => rfl
  | cons p t ih =>
    rw [modify_cons]
    by_cases hp : p.1 = k
    · have hne : p.1 ≠ k' := by rw [hp]; exact Ne.symm h
      rw [if_pos hp, get?_cons, get?_cons]
      simp only [hne, if_false]
      exact ih
    · rw [if_neg hp, get?_cons, get?_cons]
      by_cases hp' : p.1 = k' <;> simp [hp', ih]

end Obj

/-- C9: after `setFieldValue(n, v)` the value is stored under `n`, the
field's meta record exists and is dirty, and the error bag is untouched
(the call never triggers validation). -/
theorem C9_setFieldValue_writes_dirties_no_validation
    (s : EngineState) (n : String) (v : JSValue) :
    (setFieldValue s n v).values.get? n = some v ∧
    (∃ m : FieldMeta, (setFieldValue s n v).fieldsMeta.get? n = some m ∧ m.dirty = true) ∧
    (setFieldValue s n v).errors = s.errors := by
  refine ⟨?_, ?_, ?_⟩
  · by_cases h : s.fieldsMeta.hasKey n <;>
      simp [setFieldValue, h, Obj.get?_set_self]
  · by_cases h : s.fieldsMeta.hasKey n
    · have hs : (s.fieldsMeta.get? n).isSome := by
        rw [← Obj.hasKey_eq_isSome]; exact h
      obtain ⟨m, hm⟩ := Option.isSome_iff_exists.1 hs
      refine ⟨{ m with dirty := true }, ?_, rfl⟩
      simp [setFieldValue, h, Obj.get?_modify_self, hm]
    · refine ⟨{ freshMeta with dirty := true }, ?_, rfl⟩
      simp [setFieldValue, h, Obj.get?_modify_self, Obj.get?_set_self]
  · by_cases h : s.fieldsMeta.hasKey n <;> simp [setFieldValue, h]

/-- Rules that all pass contribute nothing: the rule walk continues past
them to the rest of the list. -/
theorem validateValue_append_of_all_pass (v : JSValue)
    {pre : List ValidationRule} (rest : List ValidationRule)
    (h : ∀ q ∈ pre, ruleError v q = none) :
    validateValue v (pre ++ rest) = validateValue v rest := by
  induction pre with
  | nil => rfl
  | cons r t ih =>
    have hr : ruleError v r = none := h r (by simp)
    rw [List.cons_append]
    rw [show validateValue v (r :: (t ++ rest)) =
          match ruleError v r with
          | some m => some m
          | none => validateValue v (t ++ rest) from rfl, hr]
    exact ih fun q hq => h q (by simp [hq])

/-- C5: rule evaluation is ordered and first-failure-wins — with all rules
before `r` passing and `r` failing with message `m`, the result is `m`,
and it does not depend on the rules after `r` (they are never evaluated);
a list of all-passing rules yields no error; and for the concrete scenario
`[required, minLength(3)]` against `""`, only the required message is
produced. -/
theorem C5_validateValue_first_failure_wins (v : JSValue)
    (pre post post' : List ValidationRule) (r : ValidationRule) (m : String)
    (hpre : ∀ q ∈ pre, ruleError v q = none) (hr : ruleError v r = some m) :
    validateValue v (pre ++ r :: post) = some m ∧
    validateValue v (pre ++ r :: post) = validateValue v (pre ++ r :: post') ∧
    (∀ rules : List ValidationRule,
        (∀ q ∈ rules, ruleError v q = none) → validateValue v rules = none) ∧
    (∀ m₁ m₂ : String,
        validateValue (.str "") [.required m₁, .minLength 3 m₂] = some m₁) := by
  have hfail : ∀ post₀ : List ValidationRule,
      validateValue v (pre ++ r :: post₀) = some m := by
    intro post₀
    rw [validateValue_append_of_all_pass v _ hpre]
    rw [show validateValue v (r :: post₀) =
          match ruleError v r with
          | some m => some m
          | none => validateValue v post₀ from rfl, hr]
  refine ⟨hfail post, (hfail post).trans (hfail post').symm, ?_, ?_⟩
  · intro rules hall
    have h0 := @validateValue_append_of_all_pass v rules [] hall
    simpa using h0
  · intro m₁ m₂; rfl

/-- C5 witness: the concrete scenario of the claim, rules
`[required, minLength(3)]` against the empty string. -/
theorem C5_witness :
    validateValue (.str "")
      ([] ++ ValidationRule.required "req" :: [ValidationRule.minLength 3 "min"])
      = some "req" :=
  (C5_validateValue_first_failure_wins (.str "") [] [.minLength 3 "min"] []
    (.required "req") "req" (by simp) rfl).1

/-- C10: `validationSchema` wins over `schema` whenever it is supplied
(`activeSchema = validationSchema || schema`), and `schema` is consulted
exactly when `validationSchema` is absent. -/
theorem C10_validationSchema_precedence (opts : UseFormOptions) (ref : Nat)
    (a b : SchemaObj) (ha : opts.validationSchema = some a)
    (hb : opts.schema = some b) :
    (mkConfig opts ref).activeSchema = some a ∧
    (∀ opts₂ : UseFormOptions, opts₂.validationSchema = none →
        mkActiveSchema opts₂ = opts₂.schema) := by
  constructor
  · simp [mkConfig, mkActiveSchema, ha]
  · intro opts₂ h₂
    simp [mkActiveSchema, h₂]

/-- C10 witness: with both options supplied, the variant-A object given as
`validationSchema` is the active schema. -/
theorem C10_witness :
    (mkConfig { validationSchema := some schemaOptionA, schema := some schemaOptionB } 0).activeSchema
      = some schemaOptionA :=
  (C10_validationSchema_precedence
    { validationSchema := some schemaOptionA, schema := some schemaOptionB }
    0 schemaOptionA schemaOptionB rfl rfl).1

/-- C2 counterexample: field `age` holds the value `0` — a current value —
yet registration replaces it with the empty string, because the source
guards the initialization with the truthiness test `!values.value[name]`.
The claim "for every field that already has a value (including 0, false,
or the empty string already present), the stored value is left unchanged
by registration" is therefore false at this input. -/
theorem C2_counterexample_register_overwrites_zero :
    ageZeroState.values.get? "age" = some (.num 0) ∧
    (register ageZeroState "age" none).values.get? "age" = some (.str "") := by
  exact ⟨rfl, rfl⟩

/-- C2 amended: `register(name, options)` initializes `values[name]` to the
empty string iff the field's current value is falsy (absent, `undefined`,
`null`, `''`, `0`, or `false`); only truthy current values are left
unchanged, and other fields are never touched. -/
theorem C2_amended_register_initializes_iff_falsy
    (s : EngineState) (name : String) (rules : Option (List ValidationRule)) :
    ((register s name rules).values.get? name =
      if truthy ((s.values.get? name).getD .undef) then s.values.get? name
      else some (.str "")) ∧
    (∀ other, other ≠ name →
        (register s name rules).values.get? other = s.values.get? other) := by
  constructor
  · cases rules <;>
      by_cases h : truthy ((s.values.get? name).getD .undef) <;>
        simp [register, h, Obj.get?_set_self]
  · intro other hne
    cases rules <;>
      by_cases h : truthy ((s.values.get? name).getD .undef) <;>
        simp [register, h, Obj.get?_set_ne _ hne]

/-- C2 amended witness: at the concrete state where `age` is `0` and `x`
is `5`, registration of `age` stores `''` and leaves `x` alone. -/
theorem C2_amended_witness :
    ((register ageZeroState "age" none).values.get? "age" =
      if truthy ((ageZeroState.values.get? "age").getD .undef) then
        ageZeroState.values.get? "age"
      else some (.str "")) ∧
    (register ageZeroState "age" none).values.get? "x" = ageZeroState.values.get? "x" :=
  ⟨(C2_amended_register_initializes_iff_falsy ageZeroState "age" none).1,
   (C2_amended_register_initializes_iff_falsy ageZeroState "age" none).2 "x"
     (by decide)⟩

/-- C1: every invocation of the handler returned by `handleSubmit`, and of
`submitForm`, ends with `isSubmitting = false`, over every configuration
(hence every validation outcome of all three strategies, including
adapter failures, which per the adapter contract are structured objects
the engine's internal catches absorb), every `onValid`/`onSubmit`
callback — throwing or not — and every `onInvalid` observer. -/
theorem C1_isSubmitting_false_on_completion (cfg : Config)
    (onValid : Option Callback) (onInvalid : Option (EngineState → EngineState))
    (s : EngineState) :
    (handleSubmitRun cfg onValid onInvalid s).isSubmitting = false ∧
    (submitForm cfg s).isSubmitting = false := by
  constructor <;> simp [handleSubmitRun, submitForm]

/-- C6: `resetForm()` with no argument restores `values` to the
construction-time initial values on a fresh backing object (its identity
differs from the caller's original, which the allocation counter
invariant guarantees), empties the bag and the meta map, and resets
`submitCount` and both flags. -/
theorem C6_resetForm_restores_initial_state (cfg : Config) (s : EngineState)
    (h : cfg.initialValuesRef < s.nextRef) :
    (resetForm cfg s none).values = cfg.initialValues ∧
    (resetForm cfg s none).valuesRef ≠ cfg.initialValuesRef ∧
    (resetForm cfg s none).errors = [] ∧
    (resetForm cfg s none).fieldsMeta = [] ∧
    (resetForm cfg s none).submitCount = 0 ∧
    (resetForm cfg s none).isSubmitting = false ∧
    (resetForm cfg s none).isValidating = false := by
  refine ⟨rfl, ?_, rfl, rfl, rfl, rfl, rfl⟩
  show s.nextRef ≠ cfg.initialValuesRef
  omega

/-- C6 witness: resetting a freshly built engine after one field edit. -/
theorem C6_witness :
    (resetForm (mkEngine resetOpts 0).1
        (setFieldValue (mkEngine resetOpts 0).2 "name" (.str "b")) none).values
      = (mkEngine resetOpts 0).1.initialValues ∧
    (resetForm (mkEngine resetOpts 0).1
        (setFieldValue (mkEngine resetOpts 0).2 "name" (.str "b")) none).valuesRef
      ≠ (mkEngine resetOpts 0).1.initialValuesRef ∧
    (resetForm (mkEngine resetOpts 0).1
        (setFieldValue (mkEngine resetOpts 0).2 "name" (.str "b")) none).errors = [] ∧
    (resetForm (mkEngine resetOpts 0).1
        (setFieldValue (mkEngine resetOpts 0).2 "name" (.str "b")) none).fieldsMeta = [] ∧
    (resetForm (mkEngine resetOpts 0).1
        (setFieldValue (mkEngine resetOpts 0).2 "name" (.str "b")) none).submitCount = 0 ∧
    (resetForm (mkEngine resetOpts 0).1
        (setFieldValue (mkEngine resetOpts 0).2 "name" (.str "b")) none).isSubmitting = false ∧
    (resetForm (mkEngine resetOpts 0).1
        (setFieldValue (mkEngine resetOpts 0).2 "name" (.str "b")) none).isValidating = false :=
  C6_resetForm_restores_initial_state _ _ (by decide)

/-- C8: when validation succeeds and the invoked callback throws, the
handler still completes normally and its final state is exactly the
callback's post-state with the failure logged and `isSubmitting`
cleared — in particular `values` and `submitCount` are not rolled back;
the same holds when the callback is the engine-level `onSubmit`. -/
theorem C8_callback_failure_caught_and_logged (cfg : Config) (cb : Callback)
    (onInvalid : Option (EngineState → EngineState)) (s sc : EngineState)
    (hvalid : (validate cfg
        { s with isSubmitting := true, submitCount := s.submitCount + 1 }).1.valid = true)
    (hcb : cb (validate cfg
        { s with isSubmitting := true, submitCount := s.submitCount + 1 }).2 = (sc, true)) :
    handleSubmitRun cfg (some cb) onInvalid s =
      { sc with
          consoleLog := sc.consoleLog ++ ["Form submission error:"]
          isSubmitting := false } ∧
    (handleSubmitRun cfg (some cb) onInvalid s).isSubmitting = false ∧
    (handleSubmitRun cfg (some cb) onInvalid s).values = sc.values ∧
    (handleSubmitRun cfg (some cb) onInvalid s).submitCount = sc.submitCount ∧
    (handleSubmitRun cfg (some cb) onInvalid s).consoleLog =
      sc.consoleLog ++ ["Form submission error:"] ∧
    (cfg.onSubmit = some cb → handleSubmitRun cfg none onInvalid s =
      { sc with
          consoleLog := sc.consoleLog ++ ["Form submission error:"]
          isSubmitting := false }) := by
  have key : handleSubmitRun cfg (some cb) onInvalid s =
      { sc with
          consoleLog := sc.consoleLog ++ ["Form submission error:"]
          isSubmitting := false } := by
    simp [handleSubmitRun, hvalid, hcb, Option.orElse]
  refine ⟨key, ?_, ?_, ?_, ?_, ?_⟩
  · rw [key]
  · rw [key]
  · rw [key]
  · rw [key]
  · intro hos
    simp [handleSubmitRun, hvalid, hcb, hos, Option.orElse]

/-- C8 witness: an empty schema-free form whose callback throws. -/
theorem C8_witness :
    handleSubmitRun noSchemaCfg (some throwingCb) none (baseState [] [] []) =
      { c8AfterValidate with
          consoleLog := c8AfterValidate.consoleLog ++ ["Form submission error:"]
          isSubmitting := false } :=
  (C8_callback_failure_caught_and_logged noSchemaCfg throwingCb none
    (baseState [] [] []) c8AfterValidate rfl rfl).1

/-- C4 counterexample: with no schema and no rules for `name`,
`validateField('name')` completes with `valid = true` but the stale bag
entry survives, so `getFieldError('name')` is not `undefined`, refuting
the claim at this input. -/
theorem C4_counterexample_stale_error_survives :
    (validateField noSchemaCfg staleNameState "name" none).1.valid = true ∧
    getFieldError (validateField noSchemaCfg staleNameState "name" none).2 "name"
      = some "stale" :=
  ⟨rfl, rfl⟩

/-- C4 amended: a `validateField` completion with `valid = true` removes
the field's bag entry whenever a validation actually ran — on every valid
completion of the variant-A branch (parse success, no recognizable issue
list, or no issue for this field), on variant-B success, and whenever a
rule list is used and passes (also after a variant-B message-less
fall-through) — so `getFieldError` then returns none; but on the
fall-through path with no rules to use and no external branch engaged,
the call returns valid while leaving the error bag untouched. -/
theorem C4_amended_valid_clears_only_when_validation_ran (cfg : Config)
    (s : EngineState) (name : String) :
    (cfg.isZodSchema = true →
        (validateField cfg s name none).1.valid = true →
        validateField cfg s name none =
          (⟨true, []⟩, { s with errors := s.errors.del name })) ∧
    (cfg.isZodSchema = false → cfg.isYupSchema = true →
        cfg.yupAt name s.values = .ok →
        validateField cfg s name none =
          (⟨true, []⟩, { s with errors := s.errors.del name })) ∧
    (cfg.isZodSchema = false → cfg.isYupSchema = false →
        ∀ rs, s.fieldRules.get? name = some rs →
        validateValue ((s.values.get? name).getD .undef) rs = none →
        validateField cfg s name none =
          (⟨true, []⟩, { s with errors := s.errors.del name })) ∧
    (cfg.isZodSchema = false → cfg.isYupSchema = true →
        ∀ m rs, cfg.yupAt name s.values = .thrown m → optStrTruthy m = false →
        s.fieldRules.get? name = some rs →
        validateValue ((s.values.get? name).getD .undef) rs = none →
        validateField cfg s name none =
          (⟨true, []⟩, { s with errors := s.errors.del name })) ∧
    (cfg.isZodSchema = false → cfg.isYupSchema = false →
        s.fieldRules.get? name = none →
        validateField cfg s name none = (⟨true, []⟩, s)) ∧
    getFieldError { s with errors := s.errors.del name } name = none := by
  refine ⟨?_, ?_, ?_, ?_, ?_, ?_⟩
  · intro hz hv
    cases hp : cfg.zodParse s.values with
    | ok => simp [validateField, hz, hp]
    | thrown issuesField errorsField =>
      cases hio : issuesField.orElse (fun _ => errorsField) with
      | none => simp [validateField, hz, hp, hio]
      | some issues =>
        cases hf : issues.find? (fun e => e.path.head? = some name) with
        | none => simp [validateField, hz, hp, hio, hf]
        | some fieldError =>
          exfalso
          simp [validateField, hz, hp, hio, hf] at hv
  · intro hz hy hok
    simp [validateField, hz, hy, hok]
  · intro hz hy rs hr hv
    simp [validateField, hz, hy, hr, hv, Option.orElse]
  · intro hz hy m rs hat hm hr hv
    cases m with
    | none =>
      simp [validateField, hz, hy, hat, hr, hv, Option.orElse]
    | some mm =>
      have hmm : mm = "" := by simpa [optStrTruthy] using hm
      subst hmm
      simp [validateField, hz, hy, hat, hr, hv, Option.orElse]
  · intro hz hy hr
    simp [validateField, hz, hy, hr, Option.orElse]
  · simp [getFieldError, Obj.get?_del_self]

/-- C4 amended witness: every part at a concrete form — variant-A success
and variant-B success clear the stale entry, a passing rule list clears
it (with no schema, and after a variant-B message-less fall-through), the
no-rules fall-through keeps the bag, and the cleared bag answers no
error. -/
theorem C4_amended_witness :
    validateField zodOkCfg staleErrState "f" none =
      (⟨true, []⟩, { staleErrState with errors := staleErrState.errors.del "f" }) ∧
    validateField yupOkCfg staleErrState "f" none =
      (⟨true, []⟩, { staleErrState with errors := staleErrState.errors.del "f" }) ∧
    validateField noSchemaCfg namePassState "name" none =
      (⟨true, []⟩, { namePassState with errors := namePassState.errors.del "name" }) ∧
    validateField yupNoMsgCfg namePassState "name" none =
      (⟨true, []⟩, { namePassState with errors := namePassState.errors.del "name" }) ∧
    validateField noSchemaCfg staleNameState "name" none = (⟨true, []⟩, staleNameState) ∧
    getFieldError
      { staleNameState with errors := staleNameState.errors.del "name" } "name" = none :=
  ⟨(C4_amended_valid_clears_only_when_validation_ran zodOkCfg staleErrState "f").1
      rfl rfl,
   (C4_amended_valid_clears_only_when_validation_ran yupOkCfg staleErrState "f").2.1
      rfl rfl rfl,
   (C4_amended_valid_clears_only_when_validation_ran noSchemaCfg namePassState
      "name").2.2.1 rfl rfl [.required "req"] rfl rfl,
   (C4_amended_valid_clears_only_when_validation_ran yupNoMsgCfg namePassState
      "name").2.2.2.1 rfl rfl none [.required "req"] rfl rfl rfl rfl,
   (C4_amended_valid_clears_only_when_validation_ran noSchemaCfg staleNameState
      "name").2.2.2.2.1 rfl rfl rfl,
   (C4_amended_valid_clears_only_when_validation_ran noSchemaCfg staleNameState
      "name").2.2.2.2.2⟩

/-- C3 counterexample: a variant-B (chain-style) schema throwing a
failure with no message leaves the field's ErrorBag entry in place even
though the call reports `{valid: true, errors: []}` — the claim's "removes
the field's entry from the ErrorBag" is false for variant B. -/
theorem C3_counterexample_variantB_keeps_stale_error :
    (validateField yupNoMsgCfg staleErrState "f" none).1 = ⟨true, []⟩ ∧
    getFieldError (validateField yupNoMsgCfg staleErrState "f" none).2 "f"
      = some "old" :=
  ⟨rfl, rfl⟩

/-- C3 amended: on an out-of-contract thrown failure, variant A clears
the field's entry and reports valid (fail-open); variant B also reports
`{valid: true, errors: []}` when no rules apply, but leaves the ErrorBag
untouched rather than removing the entry. -/
theorem C3_amended_fail_open_clears_variantA_only (cfg : Config)
    (s : EngineState) (name : String) (m : Option String) :
    (cfg.isZodSchema = true → cfg.zodParse s.values = .thrown none none →
        validateField cfg s name none =
          (⟨true, []⟩, { s with errors := s.errors.del name }) ∧
        getFieldError { s with errors := s.errors.del name } name = none) ∧
    (cfg.isZodSchema = false → cfg.isYupSchema = true →
        cfg.yupAt name s.values = .thrown m → optStrTruthy m = false →
        s.fieldRules.get? name = none →
        validateField cfg s name none = (⟨true, []⟩, s)) := by
  constructor
  · intro hz hp
    refine ⟨?_, by simp [getFieldError, Obj.get?_del_self]⟩
    simp [validateField, hz, hp, Option.orElse]
  · intro hz hy hat hm hr
    cases m with
    | none =>
      simp [validateField, hz, hy, hat, hr, Option.orElse]
    | some mm =>
      have hmm : mm = "" := by simpa [optStrTruthy] using hm
      subst hmm
      simp [validateField, hz, hy, hat, hr, Option.orElse]

/-- Rules-mode single-field validation in closed form: with both external
markers absent and an explicit rule list, the call stores the first
failing message as the field's sole entry, or deletes the entry. -/
theorem validateField_rules_mode (cfg : Config) (hz : cfg.isZodSchema = false)
    (hy : cfg.isYupSchema = false) (st : EngineState) (name : String)
    (rs : List ValidationRule) :
    validateField cfg st name (some rs) =
      match validateValue ((st.values.get? name).getD .undef) rs with
      | some m => (⟨false, [m]⟩, { st with errors := st.errors.set name [m] })
      | none => (⟨true, []⟩, { st with errors := st.errors.del name }) := by
  cases hv : validateValue ((st.values.get? name).getD .undef) rs <;>
    simp [validateField, hz, hy, hv, Option.orElse]

/-- The rules loop of `validate` in closed form: over entries with
pairwise-distinct keys none of which is in the bag yet, the loop appends
exactly the failing fields' singleton entries in field order and conjoins
the per-field validity into the accumulator. -/
theorem rulesLoop_spec (cfg : Config) (hz : cfg.isZodSchema = false)
    (hy : cfg.isYupSchema = false) :
    ∀ (entries : List (String × List ValidationRule)) (acc : Bool) (st : EngineState),
      (Obj.keys entries).Nodup →
      (∀ k ∈ Obj.keys entries, st.errors.get? k = none) →
      entries.foldl
          (fun a p =>
            let r := validateField cfg a.2 p.1 (some p.2)
            (a.1 && r.1.valid, r.2)) (acc, st) =
        (acc && allPass st.values entries,
         { st with errors := st.errors ++ failEntries st.values entries }) := by
  intro entries
  induction entries with
  | nil =>
    intro acc st _ _
    simp [allPass, failEntries]
  | cons p rest ih =>
    intro acc st hnd herr
    have hkey : st.errors.get? p.1 = none := herr p.1 (by simp [Obj.keys])
    have hnd' : (Obj.keys rest).Nodup := by
      have : (p.1 :: Obj.keys rest).Nodup := by simpa [Obj.keys] using hnd
      exact this.of_cons
    have hhead : p.1 ∉ Obj.keys rest := by
      have : (p.1 :: Obj.keys rest).Nodup := by simpa [Obj.keys] using hnd
      exact (List.nodup_cons.1 this).1
    rw [List.foldl_cons]
    show List.foldl _
        (let r := validateField cfg st p.1 (some p.2); (acc && r.1.valid, r.2)) rest = _
    rw [validateField_rules_mode cfg hz hy st p.1 p.2]
    cases hv : validateValue ((st.values.get? p.1).getD .undef) p.2 with
    | some m =>
      have hset : st.errors.set p.1 [m] = st.errors ++ [(p.1, [m])] :=
        Obj.set_eq_append_of_get?_none hkey [m]
      have herr' : ∀ k ∈ Obj.keys rest,
          (st.errors ++ [(p.1, [m])] : Obj (List String)).get? k = none := by
        intro k hk
        have hkne : p.1 ≠ k := fun hc => hhead (hc ▸ hk)
        have hmem : k ∈ Obj.keys (p :: rest) := by
          simp only [Obj.keys, List.map_cons, List.mem_cons]
          exact Or.inr (by simpa [Obj.keys] using hk)
        rw [Obj.get?_append, herr k hmem]
        simp [Obj.get?_cons, hkne, Obj.get?]
      have hrec := ih (acc && false)
        { st with errors := st.errors ++ [(p.1, [m])] } hnd' (by simpa using herr')
      simp only [hv, hset]
      rw [hrec]
      simp [allPass, failEntries, List.filterMap_cons, hv, List.append_assoc]
    | none =>
      have hdel : st.errors.del p.1 = st.errors :=
        Obj.del_eq_self_of_get?_none hkey
      have hsame : { st with errors := st.errors.del p.1 } = st := by
        rw [hdel]
      simp only [hv, hsame]
      have hrec := ih (acc && true) st hnd' (fun k hk => herr k (by
        simp only [Obj.keys, List.map_cons, List.mem_cons]
        exact Or.inr (by simpa [Obj.keys] using hk)))
      rw [hrec]
      simp [allPass, failEntries, List.filterMap_cons, hv]

/-- The simplified first-message view of the failing-field bag is the
failing-field message map. -/
theorem simpleErrors_failEntries (vals : Obj JSValue)
    (entries : Obj (List ValidationRule)) :
    simpleErrors (failEntries vals entries) = failMessages vals entries := by
  induction entries with
  | nil => rfl
  | cons p t ih =>
    cases hg : validateValue ((vals.get? p.1).getD .undef) p.2 <;>
      simp [simpleErrors, failEntries, failMessages, List.filterMap_cons, hg] <;>
        simpa [simpleErrors, failEntries, failMessages] using ih

/-- C7: with a rules mapping active, whole-form `validate()` visits every
field that has a rule list (continuing past failures), returns
`valid = true` exactly when every per-field validation succeeds, and
returns an errors map sending each failing field to the first message of
its (singleton) ErrorBag entry, the bag holding exactly the failing
fields. -/
theorem C7_rules_whole_form_validate (cfg : Config) (s : EngineState)
    (hz : cfg.isZodSchema = false) (hy : cfg.isYupSchema = false)
    (hnd : (Obj.keys s.fieldRules).Nodup) :
    (validate cfg s).1.valid = allPass s.values s.fieldRules ∧
    (validate cfg s).1.errors = failMessages s.values s.fieldRules ∧
    (validate cfg s).2.errors = failEntries s.values s.fieldRules := by
  have hloop := rulesLoop_spec cfg hz hy s.fieldRules true
    { s with isValidating := true, errors := [] } hnd
    (fun k _ => rfl)
  refine ⟨?_, ?_, ?_⟩
  · simp [validate, hz, hy, hloop]
  · simp [validate, hz, hy, hloop, simpleErrors_failEntries]
  · simp [validate, hz, hy, hloop]

/-- C7 witness: two rule-bearing fields, the first failing, the second
passing; validation is invalid, reports only the first field, and the bag
holds exactly that entry. -/
theorem C7_witness :
    (validate noSchemaCfg twoFieldState).1.valid =
      allPass twoFieldState.values twoFieldState.fieldRules ∧
    (validate noSchemaCfg twoFieldState).1.errors =
      failMessages twoFieldState.values twoFieldState.fieldRules ∧
    (validate noSchemaCfg twoFieldState).2.errors =
      failEntries twoFieldState.values twoFieldState.fieldRules :=
  C7_rules_whole_form_validate noSchemaCfg twoFieldState rfl rfl (by decide)

/-- C3 amended witness: both adapters at the stale-error state. -/
theorem C3_amended_witness :
    validateField zodFailCfg staleErrState "f" none =
      (⟨true, []⟩, { staleErrState with errors := staleErrState.errors.del "f" }) ∧
    validateField yupNoMsgCfg staleErrState "f" none = (⟨true, []⟩, staleErrState) :=
  ⟨((C3_amended_fail_open_clears_variantA_only zodFailCfg staleErrState "f" none).1
      rfl rfl).1,
   (C3_amended_fail_open_clears_variantA_only yupNoMsgCfg staleErrState "f" none).2
      rfl rfl rfl rfl rfl⟩

end WebmxForm
